import Mathlib

/-!
Shallow embedding of the watch-list core of src/bot.py (a Telegram moderation
bot) and proofs about it.

The embedding covers, faithfully to the Python source:
  - the string primitives the bot uses on operator tokens
    (str.strip, str.lstrip, str.lower, str.isdigit, str.startswith, int(...)),
    modelled over ASCII text (the only text the claims exercise; Python also
    accepts some non-ASCII digit and space characters, which no claim needs);
  - Python dict semantics as insertion-ordered association lists
    (assignment keeps the position of an existing key, appends a new key);
  - the sqlite-backed user cache of save_user_cache, including its
    INSERT OR REPLACE upsert and its DELETE pruning to the 2000 rows with the
    most recent last_seen (timestamps are modelled as a strictly increasing
    event counter, which realises the tie-free case of CURRENT_TIMESTAMP);
  - the handlers watch_cmd, unwatch_cmd and catch_all as pure functions from
    the token / message and the current state to the new state, the reply
    outcome, and the external calls they request.
-/

set_option autoImplicit false

namespace Bot

/-! ### Python string primitives (ASCII model) -/

/-- Whitespace test used by str.strip: space, tab, newline, carriage return. -/
def pyIsSpace (c : Char) : Bool :=
  c.toNat == 32 || c.toNat == 9 || c.toNat == 10 || c.toNat == 13

/-- ASCII decimal digit test, modelling str.isdigit character-wise. -/
def pyIsDigit (c : Char) : Bool :=
  48 ≤ c.toNat && c.toNat ≤ 57

/-- Python str.isdigit: nonempty and every character a digit. -/
def isdigitStr (s : String) : Bool :=
  !s.data.isEmpty && s.data.all pyIsDigit

/-- Python str.strip with no argument: drop whitespace from both ends. -/
def pyStrip (s : String) : String :=
  ⟨((s.data.dropWhile pyIsSpace).reverse.dropWhile pyIsSpace).reverse⟩

/-- Python str.lstrip with a one-character argument: drop every leading copy
of that character. -/
def pyLstripChar (c : Char) (s : String) : String :=
  ⟨s.data.dropWhile (fun x => x == c)⟩

/-- ASCII lower-casing of a single character, modelling str.lower. -/
def pyToLower (c : Char) : Char :=
  if 65 ≤ c.toNat && c.toNat ≤ 90 then Char.ofNat (c.toNat + 32) else c

/-- Python str.lower over the whole string. -/
def pyLower (s : String) : String :=
  ⟨s.data.map pyToLower⟩

/-- Python slicing s[1:]: drop the first character. -/
def pyTail (s : String) : String :=
  ⟨s.data.tail⟩

/-- Python s.startswith with the one-character argument used in the source. -/
def pyStartsWith (c : Char) (s : String) : Bool :=
  match s.data with
  | [] => false
  | x :: _ => x == c

/-- Numeric value of a digit string (most significant first). -/
def digitsVal (l : List Char) : Nat :=
  l.foldl (fun acc c => acc * 10 + (c.toNat - 48)) 0

/-- Python int(s) on the strings that can reach it in this program: an
optional single sign followed by ASCII digits; anything else raises
ValueError, modelled as none.  (The whitespace and underscore forms Python
also accepts cannot reach the int call in the source, which guards it with
an isdigit test on the dash-stripped token.) -/
def pyIntList : List Char → Option Int
  | [] => none
  | c :: rest =>
    if c == '+' then
      if !rest.isEmpty && rest.all pyIsDigit then some ((digitsVal rest : Nat) : Int) else none
    else if c == '-' then
      if !rest.isEmpty && rest.all pyIsDigit then some (-((digitsVal rest : Nat) : Int)) else none
    else
      if (c :: rest).all pyIsDigit then some ((digitsVal (c :: rest) : Nat) : Int) else none

def pyInt (s : String) : Option Int :=
  pyIntList s.data

/-- The decimal digit character for a value below ten. -/
def digitChar : Nat → Char
  | 0 => '0'
  | 1 => '1'
  | 2 => '2'
  | 3 => '3'
  | 4 => '4'
  | 5 => '5'
  | 6 => '6'
  | 7 => '7'
  | 8 => '8'
  | _ => '9'

/-- Decimal digits of a positive natural number, most significant first;
empty for zero (helper for natStr). -/
def natDigits : Nat → List Char
  | 0 => []
  | n + 1 => natDigits ((n + 1) / 10) ++ [digitChar ((n + 1) % 10)]
decreasing_by exact Nat.div_lt_self (Nat.succ_pos n) (by omega)

/-- Python str(n) for a natural number. -/
def natStr (n : Nat) : String :=
  if n = 0 then "0" else ⟨natDigits n⟩

/-- Python str(n) for an integer: decimal digits with a leading minus sign
when negative. -/
def intStr : Int → String
  | Int.ofNat m => natStr m
  | Int.negSucc m => "-" ++ natStr (m + 1)

/-! ### Python dict model: insertion-ordered association lists -/

/-- Python dict assignment d[k] = v: overwrite in place when the key is
present, append otherwise. -/
def dictInsert {α β : Type} [DecidableEq α] (k : α) (v : β) (d : List (α × β)) : List (α × β) :=
  if d.any (fun p => p.1 == k) then
    d.map (fun p => if p.1 == k then (k, v) else p)
  else
    d ++ [(k, v)]

/-- Python d.get(k): the value at the first (hence only) occurrence of k. -/
def dictGet {α β : Type} [DecidableEq α] (k : α) (d : List (α × β)) : Option β :=
  (d.find? (fun p => p.1 == k)).map Prod.snd

/-- Python k in d. -/
def dictContainsKey {α β : Type} [DecidableEq α] (k : α) (d : List (α × β)) : Bool :=
  d.any (fun p => p.1 == k)

/-- Removal of a key, as done by d.pop(k, None) on the stored dict. -/
def dictRemove {α β : Type} [DecidableEq α] (k : α) (d : List (α × β)) : List (α × β) :=
  d.filter (fun p => !(p.1 == k))

/-! ### The sqlite user_cache table and save_user_cache -/

/-- One row of the user_cache table: username is stored lower-cased,
last_seen is the insertion timestamp. -/
structure DbCacheRow where
  username : String
  user_id : Int
  last_seen : Nat
  deriving DecidableEq, Repr

/-- The INSERT OR REPLACE of save_user_cache: the row with the same username
(the primary key) is replaced, a fresh row is appended.  The key is already
lower-cased by the caller. -/
def upsertRow (key : String) (uid : Int) (t : Nat) (rows : List DbCacheRow) : List DbCacheRow :=
  rows.filter (fun r => !(r.username == key)) ++ [⟨key, uid, t⟩]

/-- The pruning DELETE of save_user_cache: keep only the keepN rows with the
most recent last_seen (DELETE FROM user_cache WHERE rowid NOT IN (SELECT
rowid FROM user_cache ORDER BY last_seen DESC LIMIT keepN)).  With pairwise
distinct timestamps a row survives exactly when fewer than keepN rows are
more recent; the source hard-codes keepN = 2000. -/
def pruneCache (keepN : Nat) (rows : List DbCacheRow) : List DbCacheRow :=
  rows.filter (fun r => (rows.filter (fun s => r.last_seen < s.last_seen)).length < keepN)

/-- save_user_cache(username, user_id) at logical time t: lower-case the
username, upsert the row with last_seen = t, then prune to the 2000 most
recent rows. -/
def save_user_cache (username : String) (uid : Int) (t : Nat) (rows : List DbCacheRow) :
    List DbCacheRow :=
  pruneCache 2000 (upsertRow (pyLower username) uid t rows)

/-- The persistent cache together with a logical clock; each observe happens
at the current clock value and advances the clock, so timestamps of live
rows are pairwise distinct. -/
structure DbState where
  rows : List DbCacheRow
  clock : Nat
  deriving Repr

/-- The empty cache at time zero. -/
def dbInit : DbState := ⟨[], 0⟩

/-- One cache observation: the save_user_cache call made when a message with
a username is seen. -/
def observeDb (username : String) (uid : Int) (st : DbState) : DbState :=
  ⟨save_user_cache username uid st.clock st.rows, st.clock + 1⟩

/-- A whole sequence of cache observations, in order. -/
def runObserves (evs : List (String × Int)) (st : DbState) : DbState :=
  evs.foldl (fun s e => observeDb e.1 e.2 s) st

/-! ### watch_cmd: the identifier resolver -/

/-- Result of the external get_chat_member call made by watch_cmd: either a
member (user id, optional username, first name), or failure, which models
every exception the call can raise (unsupported lookup, network error, user
not a member). -/
inductive LookupResult where
  | member (uid : Int) (username : Option String) (first_name : String)
  | failure
  deriving DecidableEq, Repr

/-- The user-visible outcome of a /watch command. -/
inductive WatchOutcome where
  /-- The usage reply (missing or empty handle argument). -/
  | usage
  /-- Now watching a numeric id. -/
  | watchedNumeric (uid : Int)
  /-- Now watching, resolved through the in-memory user_cache. -/
  | watchedViaCache (uid : Int) (disp : String)
  /-- Now watching, resolved through the external get_chat_member call. -/
  | watchedViaLookup (uid : Int) (disp : String)
  /-- The could-not-resolve reply asking the user to send a message first. -/
  | unresolved
  /-- The invalid-argument reply. -/
  | invalidArgument
  /-- An uncaught Python exception escaping the handler (no reply is sent). -/
  | pyError
  deriving DecidableEq, Repr

/-- Everything a watch_cmd invocation produces: the reply outcome, the new
watched registry, the new in-memory user_cache, and how many external
get_chat_member calls and user_cache lookups were made. -/
structure ResolveResult where
  outcome : WatchOutcome
  watched : List (Int × String)
  user_cache : List (String × Int)
  externalCalls : Nat
  cacheLookups : Nat
  deriving DecidableEq, Repr

/-- Python x or y for an optional string x: y when x is None or empty. -/
def pyOrElse (x : Option String) (y : String) : String :=
  match x with
  | some s => if s = "" then y else s
  | none => y

/-- The external branch of watch_cmd: one get_chat_member call; on success
the display is the at-sign plus the canonical username (falling back to the
first name when the platform reports none) and the user is upserted into
watched; any exception is caught and mapped to the unresolved reply.  Note
that neither branch writes to user_cache. -/
def externalResolve (uname : String) (oracle : String → LookupResult)
    (watched : List (Int × String)) (user_cache : List (String × Int)) : ResolveResult :=
  match oracle uname with
  | .member uid username first_name =>
    let disp := "@" ++ pyOrElse username first_name
    ⟨.watchedViaLookup uid disp, dictInsert uid disp watched, user_cache, 1, 1⟩
  | .failure => ⟨.unresolved, watched, user_cache, 1, 1⟩

/-- The at-sign branch of watch_cmd, after uname = arg[1:].strip(): empty
handle gives the usage reply; otherwise the user_cache is consulted with the
lower-cased handle, and the Python test if uid: treats both a missing key
and a cached id of 0 as a miss, falling through to the external lookup.  On
a cache hit the display keeps the case the operator typed. -/
def handleBranch (uname : String) (oracle : String → LookupResult)
    (watched : List (Int × String)) (user_cache : List (String × Int)) : ResolveResult :=
  if uname = "" then
    ⟨.usage, watched, user_cache, 0, 0⟩
  else
    match dictGet (pyLower uname) user_cache with
    | some uid =>
      if uid = 0 then
        externalResolve uname oracle watched user_cache
      else
        let disp := "@" ++ uname
        ⟨.watchedViaCache uid disp, dictInsert uid disp watched, user_cache, 0, 1⟩
    | none => externalResolve uname oracle watched user_cache

/-- watch_cmd on a single token (context.args[0]).  The token is stripped;
a token whose dash-lstripped form is all digits goes down the numeric path,
where int(token) is evaluated (and can raise ValueError, the pyError
outcome, because lstrip removes every leading dash while int accepts at most
one); otherwise a token starting with the at sign goes to the handle branch;
anything else gets the invalid-argument reply. -/
def watch_cmd (token : String) (oracle : String → LookupResult)
    (watched : List (Int × String)) (user_cache : List (String × Int)) : ResolveResult :=
  let arg := pyStrip token
  if isdigitStr (pyLstripChar '-' arg) then
    match pyInt arg with
    | some uid => ⟨.watchedNumeric uid, dictInsert uid (intStr uid) watched, user_cache, 0, 0⟩
    | none => ⟨.pyError, watched, user_cache, 0, 0⟩
  else if pyStartsWith '@' arg then
    handleBranch (pyStrip (pyTail arg)) oracle watched user_cache
  else
    ⟨.invalidArgument, watched, user_cache, 0, 0⟩

/-! ### unwatch_cmd and remove_by_handle -/

/-- The user-visible outcome of an /unwatch command. -/
inductive UnwatchOutcome where
  | stoppedId (uid : Int)
  | idNotWatched
  | stoppedHandle (uid : Int)
  | handleNotWatched
  | invalidArgument
  | pyError
  deriving DecidableEq, Repr

/-- The scan of unwatch_cmd over the watched dict: the first entry whose
display, with every leading at sign stripped and lower-cased, equals the
lower-cased handle. -/
def removeScan (uname : String) : List (Int × String) → Option Int
  | [] => none
  | p :: rest =>
    if pyLower (pyLstripChar '@' p.2) == uname then some p.1 else removeScan uname rest

/-- The handle branch of unwatch_cmd, as the spec names it: strip and
lower-case the supplied handle text, scan the registry for the first
matching display, and remove that entry by its user id. -/
def remove_by_handle (handle : String) (watched : List (Int × String)) :
    Bool × List (Int × String) :=
  let uname := pyLower (pyStrip handle)
  match removeScan uname watched with
  | some uid => (true, dictRemove uid watched)
  | none => (false, watched)

/-- unwatch_cmd on a single token.  The numeric branch pops the id and then
tests the truthiness of the popped display (None, or an empty display, reads
as not watched — an empty display is still popped, faithfully to
watched.pop(uid, None)); the at-sign branch is remove_by_handle on
arg[1:]. -/
def unwatch_cmd (token : String) (watched : List (Int × String)) :
    UnwatchOutcome × List (Int × String) :=
  let arg := pyStrip token
  if isdigitStr (pyLstripChar '-' arg) then
    match pyInt arg with
    | some uid =>
      match dictGet uid watched with
      | some disp =>
        if disp = "" then (.idNotWatched, dictRemove uid watched)
        else (.stoppedId uid, dictRemove uid watched)
      | none => (.idNotWatched, watched)
    | none => (.pyError, watched)
  else if pyStartsWith '@' arg then
    let uname := pyLower (pyStrip (pyTail arg))
    match removeScan uname watched with
    | some uid => (.stoppedHandle uid, dictRemove uid watched)
    | none => (.handleNotWatched, watched)
  else
    (.invalidArgument, watched)

/-! ### catch_all: the moderation dispatcher -/

/-- The sender of a message: Telegram user id and optional username. -/
structure UserInfo where
  id : Int
  username : Option String
  deriving DecidableEq, Repr

/-- A non-command message event as catch_all receives it. -/
structure MsgEvent where
  chat_id : Int
  message_id : Int
  from_user : Option UserInfo
  deriving DecidableEq, Repr

/-- Everything a catch_all invocation produces: the new in-memory
user_cache, the new persistent cache state, and the list of delete_message
calls requested (as chat id, message id pairs).  Failures of the delete call
itself are caught and logged in the source, so the request list is the
observable behaviour. -/
structure DispatchResult where
  user_cache : List (String × Int)
  db : DbState
  deletes : List (Int × Int)
  deriving Repr

/-- catch_all on a message event.  A missing message or sender is a no-op.
If the sender has a (truthy, hence nonempty) username, both the in-memory
user_cache and the persistent cache are refreshed, watched or not.  If the
sender id is a key of watched, exactly one delete_message call is requested
with the message chat id and message id. -/
def catch_all (msg : Option MsgEvent) (watched : List (Int × String))
    (user_cache : List (String × Int)) (db : DbState) : DispatchResult :=
  match msg with
  | none => ⟨user_cache, db, []⟩
  | some m =>
    match m.from_user with
    | none => ⟨user_cache, db, []⟩
    | some user =>
      let cachePair :=
        match user.username with
        | some uname =>
          if uname = "" then (user_cache, db)
          else (dictInsert (pyLower uname) user.id user_cache, observeDb uname user.id db)
        | none => (user_cache, db)
      let deletes :=
        if dictContainsKey user.id watched then [(m.chat_id, m.message_id)] else []
      ⟨cachePair.1, cachePair.2, deletes⟩

/-! ### Lemmas about the string primitives -/

lemma dropWhile_cons_of_neg (p : Char → Bool) (c : Char) (l : List Char) (h : p c = false) :
    List.dropWhile p (c :: l) = c :: l := by
  simp [List.dropWhile, h]

lemma dropWhile_cons_of_pos (p : Char → Bool) (c : Char) (l : List Char) (h : p c = true) :
    List.dropWhile p (c :: l) = List.dropWhile p l := by
  simp [List.dropWhile, h]

lemma dropWhile_eq_self {p : Char → Bool} {l : List Char} (h : ∀ c ∈ l, p c = false) :
    List.dropWhile p l = l := by
  cases l with
  | nil => rfl
  | cons c t => exact dropWhile_cons_of_neg p c t (h c (List.mem_cons_self c t))

lemma pyStrip_eq_self {s : String} (h : ∀ c ∈ s.data, pyIsSpace c = false) : pyStrip s = s := by
  unfold pyStrip
  rw [dropWhile_eq_self h,
    dropWhile_eq_self (fun c hc => h c (List.mem_reverse.mp hc)), List.reverse_reverse]

lemma not_space_of_digit {c : Char} (h : pyIsDigit c = true) : pyIsSpace c = false := by
  simp only [pyIsDigit, Bool.and_eq_true, decide_eq_true_eq] at h
  simp only [pyIsSpace, Bool.or_eq_false_iff, beq_eq_false_iff_ne, ne_eq]
  omega

lemma digit_ne_char {c x : Char} (hc : pyIsDigit c = true) (hx : pyIsDigit x = false) :
    (c == x) = false := by
  rcases Bool.eq_false_or_eq_true (c == x) with h | h
  · rw [beq_iff_eq] at h
    subst h
    rw [hc] at hx
    exact absurd hx (by simp)
  · exact h

lemma digitChar_isDigit (d : Nat) (h : d < 10) : pyIsDigit (digitChar d) = true := by
  interval_cases d <;> decide

lemma digitChar_toNat (d : Nat) (h : d < 10) : (digitChar d).toNat = 48 + d := by
  interval_cases d <;> decide

lemma natDigits_all_digit (n : Nat) : (natDigits n).all pyIsDigit = true := by
  induction n using Nat.strong_induction_on with
  | _ n ih =>
    match n with
    | 0 => simp [natDigits]
    | m + 1 =>
      rw [natDigits, List.all_append]
      have h1 := ih ((m + 1) / 10) (Nat.div_lt_self (Nat.succ_pos m) (by omega))
      have h2 := digitChar_isDigit ((m + 1) % 10) (Nat.mod_lt _ (by omega))
      simp [h1, h2]

lemma natDigits_ne_nil {n : Nat} (h : n ≠ 0) : natDigits n ≠ [] := by
  match n with
  | 0 => exact absurd rfl h
  | m + 1 =>
    rw [natDigits]
    simp

lemma digitsVal_append (l : List Char) (c : Char) :
    digitsVal (l ++ [c]) = digitsVal l * 10 + (c.toNat - 48) := by
  unfold digitsVal
  rw [List.foldl_append]
  rfl

lemma digitsVal_natDigits (n : Nat) : digitsVal (natDigits n) = n := by
  induction n using Nat.strong_induction_on with
  | _ n ih =>
    match n with
    | 0 => simp [natDigits, digitsVal]
    | m + 1 =>
      rw [natDigits, digitsVal_append,
        ih ((m + 1) / 10) (Nat.div_lt_self (Nat.succ_pos m) (by omega)),
        digitChar_toNat ((m + 1) % 10) (Nat.mod_lt _ (by omega))]
      omega

lemma natStr_data (n : Nat) :
    ∃ c t, (natStr n).data = c :: t ∧ pyIsDigit c = true ∧ t.all pyIsDigit = true ∧
      digitsVal (c :: t) = n := by
  by_cases h : n = 0
  · subst h
    exact ⟨'0', [], rfl, by decide, rfl, rfl⟩
  · have hall := natDigits_all_digit n
    have hval := digitsVal_natDigits n
    have hdata : (natStr n).data = natDigits n := by
      unfold natStr
      rw [if_neg h]
    rcases hd : natDigits n with _ | ⟨c, t⟩
    · exact absurd hd (natDigits_ne_nil h)
    · rw [hd] at hall hval
      rw [List.all_cons, Bool.and_eq_true] at hall
      exact ⟨c, t, by rw [hdata, hd], hall.1, hall.2, hval⟩

lemma intStr_data (n : Int) :
    (∃ c t, (intStr n).data = c :: t ∧ pyIsDigit c = true ∧ t.all pyIsDigit = true ∧
      ((digitsVal (c :: t) : Nat) : Int) = n) ∨
    (∃ c t, (intStr n).data = '-' :: c :: t ∧ pyIsDigit c = true ∧ t.all pyIsDigit = true ∧
      -((digitsVal (c :: t) : Nat) : Int) = n) := by
  match n with
  | Int.ofNat m =>
    left
    obtain ⟨c, t, hd, hc, ht, hv⟩ := natStr_data m
    exact ⟨c, t, hd, hc, ht, by rw [hv]; rfl⟩
  | Int.negSucc m =>
    right
    obtain ⟨c, t, hd, hc, ht, hv⟩ := natStr_data (m + 1)
    refine ⟨c, t, ?_, hc, ht, ?_⟩
    · show ("-" ++ natStr (m + 1)).data = '-' :: c :: t
      rw [String.data_append, hd]
      rfl
    · rw [hv]
      simp [Int.negSucc_eq]

lemma pyStrip_intStr (n : Int) : pyStrip (intStr n) = intStr n := by
  apply pyStrip_eq_self
  intro c hc
  rcases intStr_data n with ⟨d, t, hd, hdig, hall, _⟩ | ⟨d, t, hd, hdig, hall, _⟩ <;>
    rw [hd] at hc <;> simp only [List.mem_cons] at hc
  · rcases hc with rfl | h
    · exact not_space_of_digit hdig
    · exact not_space_of_digit (List.all_eq_true.mp hall _ h)
  · rcases hc with rfl | rfl | h
    · decide
    · exact not_space_of_digit hdig
    · exact not_space_of_digit (List.all_eq_true.mp hall _ h)

lemma isdigit_lstrip_intStr (n : Int) : isdigitStr (pyLstripChar '-' (intStr n)) = true := by
  unfold pyLstripChar isdigitStr
  rcases intStr_data n with ⟨d, t, hd, hdig, hall, _⟩ | ⟨d, t, hd, hdig, hall, _⟩ <;> rw [hd]
  · rw [dropWhile_cons_of_neg (fun x => x == '-') d t (digit_ne_char hdig (by decide))]
    simp [List.all_cons, hdig, hall]
  · have h1 : List.dropWhile (fun x => x == '-') ('-' :: d :: t) = d :: t := by
      rw [dropWhile_cons_of_pos (fun x => x == '-') '-' (d :: t) (by decide),
        dropWhile_cons_of_neg (fun x => x == '-') d t (digit_ne_char hdig (by decide))]
    rw [h1]
    simp [List.all_cons, hdig, hall]

lemma pyInt_intStr (n : Int) : pyInt (intStr n) = some n := by
  unfold pyInt
  rcases intStr_data n with ⟨d, t, hd, hdig, hall, hv⟩ | ⟨d, t, hd, hdig, hall, hv⟩ <;> rw [hd]
  · rw [pyIntList, digit_ne_char hdig (by decide), digit_ne_char hdig (by decide)]
    simp only [Bool.false_eq_true, if_false, List.all_cons, hdig, hall, Bool.and_self,
      if_true, hv]
  · rw [pyIntList]
    rw [show ('-' == '+') = false from by decide, show ('-' == '-') = true from by decide]
    simp only [Bool.false_eq_true, if_false, if_true, List.isEmpty_cons, Bool.not_false,
      List.all_cons, hdig, hall, Bool.and_self, Bool.true_and, hv]

lemma pyToLower_eq_self {c : Char} (h : c.toNat < 65) : pyToLower c = c := by
  unfold pyToLower
  have hc : (65 ≤ c.toNat && c.toNat ≤ 90) = false := by
    simp only [Bool.and_eq_false_iff, decide_eq_false_iff_not, not_le]
    omega
  rw [hc]
  simp

lemma digit_toNat_lt {c : Char} (h : pyIsDigit c = true) : c.toNat < 65 := by
  simp only [pyIsDigit, Bool.and_eq_true, decide_eq_true_eq] at h
  omega

lemma pyLower_intStr (n : Int) : pyLower (intStr n) = intStr n := by
  unfold pyLower
  have h : (intStr n).data.map pyToLower = (intStr n).data := by
    rw [show (intStr n).data.map pyToLower = (intStr n).data.map id from
      List.map_congr_left ?_, List.map_id]
    intro c hc
    show pyToLower c = c
    rcases intStr_data n with ⟨d, t, hd, hdig, hall, _⟩ | ⟨d, t, hd, hdig, hall, _⟩ <;>
      rw [hd] at hc <;> simp only [List.mem_cons] at hc
    · rcases hc with rfl | h
      · exact pyToLower_eq_self (digit_toNat_lt hdig)
      · exact pyToLower_eq_self (digit_toNat_lt (List.all_eq_true.mp hall _ h))
    · rcases hc with rfl | rfl | h
      · decide
      · exact pyToLower_eq_self (digit_toNat_lt hdig)
      · exact pyToLower_eq_self (digit_toNat_lt (List.all_eq_true.mp hall _ h))
  rw [h]

lemma lstripAt_intStr (n : Int) : pyLstripChar '@' (intStr n) = intStr n := by
  unfold pyLstripChar
  rcases intStr_data n with ⟨d, t, hd, hdig, _, _⟩ | ⟨d, t, hd, _, _, _⟩ <;> rw [hd]
  · rw [dropWhile_cons_of_neg (fun x => x == '@') d t (digit_ne_char hdig (by decide))]
    rw [← hd]
  · rw [dropWhile_cons_of_neg (fun x => x == '@') '-' (d :: t) (by decide)]
    rw [← hd]

/-! ### Branch lemmas for watch_cmd -/

lemma watch_cmd_intStr (n : Int) (oracle : String → LookupResult)
    (watched : List (Int × String)) (cache : List (String × Int)) :
    watch_cmd (intStr n) oracle watched cache =
      ⟨.watchedNumeric n, dictInsert n (intStr n) watched, cache, 0, 0⟩ := by
  simp [watch_cmd, pyStrip_intStr, isdigit_lstrip_intStr, pyInt_intStr]

lemma watch_cmd_at (uname : String) (oracle : String → LookupResult)
    (watched : List (Int × String)) (cache : List (String × Int))
    (hclean : ∀ c ∈ uname.data, pyIsSpace c = false) :
    watch_cmd ("@" ++ uname) oracle watched cache = handleBranch uname oracle watched cache := by
  have hdata : ("@" ++ uname).data = '@' :: uname.data := by
    rw [String.data_append]
    rfl
  have hstrip : pyStrip ("@" ++ uname) = "@" ++ uname := by
    apply pyStrip_eq_self
    rw [hdata]
    intro c hc
    rcases List.mem_cons.mp hc with rfl | h
    · decide
    · exact hclean c h
  have hdigit : isdigitStr (pyLstripChar '-' ("@" ++ uname)) = false := by
    unfold pyLstripChar isdigitStr
    rw [hdata, dropWhile_cons_of_neg (fun x => x == '-') '@' uname.data (by decide)]
    simp [List.all_cons, pyIsDigit]
  have hstart : pyStartsWith '@' ("@" ++ uname) = true := by
    unfold pyStartsWith
    rw [hdata]
    rfl
  have htail : pyTail ("@" ++ uname) = uname := by
    unfold pyTail
    rw [hdata]
    rfl
  have hustrip : pyStrip uname = uname := pyStrip_eq_self hclean
  simp only [watch_cmd, hstrip, hdigit, hstart, htail, hustrip, Bool.false_eq_true, if_false,
    if_true]

lemma handleBranch_ext_of_miss {uname : String} (oracle : String → LookupResult)
    (watched : List (Int × String)) (cache : List (String × Int))
    (hne : uname ≠ "") (hmiss : dictGet (pyLower uname) cache = none) :
    handleBranch uname oracle watched cache = externalResolve uname oracle watched cache := by
  simp [handleBranch, hne, hmiss]

lemma handleBranch_ext_of_zero {uname : String} (oracle : String → LookupResult)
    (watched : List (Int × String)) (cache : List (String × Int))
    (hne : uname ≠ "") (hzero : dictGet (pyLower uname) cache = some 0) :
    handleBranch uname oracle watched cache = externalResolve uname oracle watched cache := by
  simp [handleBranch, hne, hzero]

/-! ### Lemmas for remove_by_handle -/

lemma removeScan_eq_find? (uname : String) (w : List (Int × String)) :
    removeScan uname w =
      (w.find? (fun p => pyLower (pyLstripChar '@' p.2) == uname)).map Prod.fst := by
  induction w with
  | nil => rfl
  | cons p rest ih =>
    rw [removeScan, List.find?_cons]
    by_cases h : (pyLower (pyLstripChar '@' p.2) == uname) = true
    · rw [h]
      simp
    · rw [Bool.eq_false_iff.mpr h]
      simp only [Bool.false_eq_true, if_false]
      exact ih

lemma dictRemove_length_lt {α β : Type} [DecidableEq α] (k : α) (d : List (α × β))
    (v : β) (h : (k, v) ∈ d) : (dictRemove k d).length < d.length := by
  apply List.length_filter_lt_length_iff_exists.mpr
  exact ⟨(k, v), h, by simp⟩

/-! ### Lemmas for the persistent cache and its pruning -/

/-- The i-th distinct username used in the cache-growth scenario: a run of
i + 1 copies of the letter a (distinct lengths give distinct names, and the
name is already lower-case). -/
def unameA (i : Nat) : String := ⟨List.replicate (i + 1) 'a'⟩

/-- The cache row produced by the i-th observation of the scenario. -/
def rowA (i : Nat) : DbCacheRow := ⟨unameA i, (i : Int), i⟩

/-- The first k observation events of the cache-growth scenario. -/
def c1Events (k : Nat) : List (String × Int) :=
  (List.range k).map (fun i => (unameA i, (i : Int)))

lemma pyLower_unameA (i : Nat) : pyLower (unameA i) = unameA i := by
  unfold pyLower unameA
  rw [show (String.mk (List.replicate (i + 1) 'a')).data = List.replicate (i + 1) 'a' from rfl,
    List.map_replicate, show pyToLower 'a' = 'a' from by decide]

lemma unameA_ne {i j : Nat} (h : i ≠ j) : unameA i ≠ unameA j := by
  intro heq
  have hdata := congrArg String.data heq
  have hlen := congrArg List.length hdata
  simp only [unameA, List.length_replicate] at hlen
  omega

lemma runObserves_append (evs : List (String × Int)) (e : String × Int) (st : DbState) :
    runObserves (evs ++ [e]) st = observeDb e.1 e.2 (runObserves evs st) := by
  unfold runObserves
  rw [List.foldl_append]
  rfl

lemma pruneCache_eq_self {keepN : Nat} {rows : List DbCacheRow} (h : rows.length ≤ keepN) :
    pruneCache keepN rows = rows := by
  unfold pruneCache
  apply List.filter_eq_self.mpr
  intro r hr
  apply decide_eq_true
  calc (rows.filter fun s => r.last_seen < s.last_seen).length
      < rows.length := List.length_filter_lt_length_iff_exists.mpr ⟨r, hr, by simp⟩
    _ ≤ keepN := h

lemma upsertRow_fresh {key : String} {rows : List DbCacheRow}
    (h : ∀ r ∈ rows, r.username ≠ key) (uid : Int) (t : Nat) :
    upsertRow key uid t rows = rows ++ [⟨key, uid, t⟩] := by
  unfold upsertRow
  rw [List.filter_eq_self.mpr]
  intro r hr
  simp [h r hr]

lemma runObserves_c1 (k : Nat) (hk : k ≤ 2000) :
    runObserves (c1Events k) dbInit = ⟨(List.range k).map rowA, k⟩ := by
  induction k with
  | zero => rfl
  | succ m ih =>
    have hm := ih (le_trans (Nat.le_succ m) hk)
    have hevs : c1Events (m + 1) = c1Events m ++ [(unameA m, (m : Int))] := by
      unfold c1Events
      rw [List.range_succ, List.map_append]
      rfl
    rw [hevs, runObserves_append, hm]
    show DbState.mk (save_user_cache (unameA m) (m : Int) m ((List.range m).map rowA)) (m + 1)
      = DbState.mk ((List.range (m + 1)).map rowA) (m + 1)
    unfold save_user_cache
    rw [pyLower_unameA]
    have hfresh : ∀ r ∈ (List.range m).map rowA, r.username ≠ unameA m := by
      intro r hr
      obtain ⟨i, hi, rfl⟩ := List.mem_map.mp hr
      rw [List.mem_range] at hi
      exact unameA_ne (by omega)
    rw [upsertRow_fresh hfresh (m : Int) m]
    have hrows : (List.range m).map rowA ++ [⟨unameA m, (m : Int), m⟩]
        = (List.range (m + 1)).map rowA := by
      rw [List.range_succ, List.map_append]
      rfl
    rw [hrows, pruneCache_eq_self (by simp; omega)]

lemma length_filter_range_lt (a n : Nat) :
    ((List.range n).filter (fun j => decide (a < j))).length = n - (a + 1) := by
  induction n with
  | zero => simp
  | succ m ih =>
    rw [List.range_succ, List.filter_append, List.length_append, ih]
    by_cases h : a < m
    · simp [List.filter_cons, h]
      omega
    · simp [List.filter_cons, h]
      omega

lemma inner_filter_L (i : Nat) (hi : i ≤ 2000) :
    (((List.range 2001).map rowA).filter (fun s => decide (i < s.last_seen))).length
      = 2000 - i := by
  rw [List.filter_map, List.length_map]
  have hcomp : ((fun s => decide (i < s.last_seen)) ∘ rowA) = (fun j => decide (i < j)) := rfl
  rw [hcomp, length_filter_range_lt]
  omega

lemma rowA_last_seen (i : Nat) : (rowA i).last_seen = i := rfl

set_option maxRecDepth 4000 in
lemma prune_L2001_length :
    (pruneCache 2000 ((List.range 2001).map rowA)).length = 2000 := by
  unfold pruneCache
  rw [List.filter_map, List.length_map]
  have hcong : ∀ i ∈ List.range 2001,
      ((fun r => decide (((((List.range 2001).map rowA).filter
          (fun s => decide (r.last_seen < s.last_seen))).length < 2000))) ∘ rowA) i
        = decide (0 < i) := by
    intro i hi
    rw [List.mem_range] at hi
    simp only [Function.comp_apply, rowA_last_seen]
    rw [decide_eq_decide]
    rw [inner_filter_L i (by omega)]
    omega
  rw [List.filter_congr hcong]
  rw [length_filter_range_lt]

lemma exists_min_last_seen {l : List DbCacheRow} (h : l ≠ []) :
    ∃ m ∈ l, ∀ s ∈ l, m.last_seen ≤ s.last_seen := by
  induction l with
  | nil => exact absurd rfl h
  | cons a t ih =>
    cases t with
    | nil =>
      refine ⟨a, List.mem_cons_self a [], ?_⟩
      intro s hs
      rcases List.mem_cons.mp hs with rfl | hs
      · exact le_refl _
      · exact absurd hs (List.not_mem_nil s)
    | cons b u =>
      obtain ⟨m, hm, hmin⟩ := ih (by simp)
      by_cases hc : a.last_seen ≤ m.last_seen
      · refine ⟨a, List.mem_cons_self a (b :: u), ?_⟩
        intro s hs
        rcases List.mem_cons.mp hs with rfl | hs
        · exact le_refl _
        · exact le_trans hc (hmin s hs)
      · refine ⟨m, List.mem_cons_of_mem a hm, ?_⟩
        intro s hs
        rcases List.mem_cons.mp hs with rfl | hs
        · omega
        · exact hmin s hs

lemma length_le_one_of_nodup_all_eq {l : List Nat} (a : Nat) (hnd : l.Nodup)
    (hall : ∀ x ∈ l, x = a) : l.length ≤ 1 := by
  match l with
  | [] => simp
  | [x] => simp
  | x :: y :: t =>
    have hx : x = a := hall x (List.mem_cons_self x (y :: t))
    have hy : y = a := hall y (List.mem_cons_of_mem x (List.mem_cons_self y t))
    rw [List.nodup_cons] at hnd
    exact absurd (List.mem_cons_self y t) (by rw [show x = y from hx.trans hy.symm] at hnd; exact hnd.1)

lemma pruneCache_length_le (keepN : Nat) (rows : List DbCacheRow)
    (hnd : (rows.map DbCacheRow.last_seen).Nodup) (hlen : rows.length ≤ keepN + 1) :
    (pruneCache keepN rows).length ≤ keepN := by
  by_cases hle : rows.length ≤ keepN
  · exact le_trans (List.length_filter_le _ _) hle
  · have hlen' : rows.length = keepN + 1 := by omega
    have hne : rows ≠ [] := by
      intro h
      rw [h] at hlen'
      simp at hlen'
    obtain ⟨m, hm, hmin⟩ := exists_min_last_seen hne
    have hsplit := @List.length_eq_length_filter_add DbCacheRow rows
      (fun s => decide (m.last_seen < s.last_seen))
    have hneg : (rows.filter (fun s => !(decide (m.last_seen < s.last_seen)))).length ≤ 1 := by
      have hsub : ((rows.filter (fun s => !(decide (m.last_seen < s.last_seen)))).map
          DbCacheRow.last_seen).Sublist (rows.map DbCacheRow.last_seen) :=
        List.Sublist.map _ (List.filter_sublist _)
      have hnd2 := hnd.sublist hsub
      have hall : ∀ x ∈ (rows.filter (fun s => !(decide (m.last_seen < s.last_seen)))).map
          DbCacheRow.last_seen, x = m.last_seen := by
        intro x hx
        obtain ⟨s, hs, rfl⟩ := List.mem_map.mp hx
        obtain ⟨hsmem, hsp⟩ := List.mem_filter.mp hs
        have h1 : ¬ (m.last_seen < s.last_seen) := by simpa using hsp
        have h2 := hmin s hsmem
        omega
      have := length_le_one_of_nodup_all_eq m.last_seen hnd2 hall
      rwa [List.length_map] at this
    have hfail : ((rows.filter (fun s => decide (m.last_seen < s.last_seen))).length < keepN)
        = False := by
      simp only [eq_iff_iff, iff_false, not_lt]
      omega
    have hdrop : (pruneCache keepN rows).length < rows.length := by
      apply List.length_filter_lt_length_iff_exists.mpr
      refine ⟨m, hm, ?_⟩
      simp only [hfail, decide_eq_true_eq]
      exact fun h => h
    omega

/-- The reachability invariant of the persistent cache: at most 2000 rows,
all timestamps in the past, and timestamps pairwise distinct. -/
def DbInv (st : DbState) : Prop :=
  st.rows.length ≤ 2000 ∧ (∀ r ∈ st.rows, r.last_seen < st.clock) ∧
    (st.rows.map DbCacheRow.last_seen).Nodup

lemma observeDb_inv {st : DbState} (u : String) (uid : Int) (hinv : DbInv st) :
    DbInv (observeDb u uid st) := by
  obtain ⟨hlen, hclk, hnd⟩ := hinv
  have hfsub : (st.rows.filter (fun r => !(r.username == pyLower u))).Sublist st.rows :=
    List.filter_sublist _
  have h1len : (upsertRow (pyLower u) uid st.clock st.rows).length ≤ st.rows.length + 1 := by
    unfold upsertRow
    rw [List.length_append]
    have := hfsub.length_le
    simp only [List.length_cons, List.length_nil]
    omega
  have h1ts : ∀ r ∈ upsertRow (pyLower u) uid st.clock st.rows, r.last_seen < st.clock + 1 := by
    intro r hr
    unfold upsertRow at hr
    rcases List.mem_append.mp hr with h | h
    · exact lt_trans (hclk r (hfsub.mem h)) (Nat.lt_succ_self _)
    · rcases List.mem_singleton.mp h with rfl
      exact Nat.lt_succ_self _
  have h1nd : ((upsertRow (pyLower u) uid st.clock st.rows).map DbCacheRow.last_seen).Nodup := by
    unfold upsertRow
    rw [List.map_append]
    have hnd1 := hnd.sublist (List.Sublist.map _ hfsub)
    have hnotmem : st.clock ∉ (st.rows.filter
        (fun r => !(r.username == pyLower u))).map DbCacheRow.last_seen := by
      intro hmem
      obtain ⟨r, hr, hts⟩ := List.mem_map.mp hmem
      have := hclk r (hfsub.mem hr)
      omega
    simp only [List.map_cons, List.map_nil]
    rw [List.nodup_append]
    refine ⟨hnd1, List.nodup_singleton _, ?_⟩
    intro x hx
    simp only [List.mem_singleton]
    intro hx1
    subst hx1
    exact hnotmem hx
  refine ⟨?_, ?_, ?_⟩
  · exact pruneCache_length_le 2000 _ h1nd (by omega)
  · intro r hr
    exact h1ts r ((List.filter_sublist _).mem hr)
  · exact h1nd.sublist (List.Sublist.map _ (List.filter_sublist _))

lemma runObserves_inv (evs : List (String × Int)) (st : DbState) (hinv : DbInv st) :
    DbInv (runObserves evs st) := by
  induction evs generalizing st with
  | nil => exact hinv
  | cons e rest ih =>
    have h1 : runObserves (e :: rest) st = runObserves rest (observeDb e.1 e.2 st) := rfl
    rw [h1]
    exact ih _ (observeDb_inv e.1 e.2 hinv)

lemma remove_by_handle_of_find_none {handle : String} {w : List (Int × String)}
    (hf : w.find? (fun p => pyLower (pyLstripChar '@' p.2) == pyLower (pyStrip handle))
      = none) :
    remove_by_handle handle w = (false, w) := by
  simp only [remove_by_handle]
  rw [removeScan_eq_find?, hf]
  rfl

lemma remove_by_handle_of_find_some {handle : String} {w : List (Int × String)}
    {q : Int × String}
    (hf : w.find? (fun p => pyLower (pyLstripChar '@' p.2) == pyLower (pyStrip handle))
      = some q) :
    remove_by_handle handle w = (true, dictRemove q.1 w) := by
  simp only [remove_by_handle]
  rw [removeScan_eq_find?, hf]
  rfl

/-- A concrete external lookup that succeeds with user id 9, canonical
username Bob and first name Bobby (used by concrete instances). -/
def sampleOracle : String → LookupResult := fun _ => .member 9 (some "Bob") "Bobby"

/-- A concrete external lookup that always fails (used by concrete
instances). -/
def failOracle : String → LookupResult := fun _ => .failure

/-! ### Claim theorems -/

lemma step_c1 (k : Nat) :
    runObserves (c1Events (k + 1)) dbInit
      = observeDb (unameA k) (k : Int) (runObserves (c1Events k) dbInit) := by
  rw [show c1Events (k + 1) = c1Events k ++ [(unameA k, (k : Int))] from by
    unfold c1Events
    rw [List.range_succ, List.map_append]
    rfl]
  exact runObserves_append _ _ _

lemma upsertRow_rowA (k : Nat) (u : Int) (hu : u = (k : Int)) :
    upsertRow (pyLower (unameA k)) u k ((List.range k).map rowA)
      = (List.range (k + 1)).map rowA := by
  have hfresh : ∀ r ∈ (List.range k).map rowA, r.username ≠ unameA k := by
    intro r hr
    obtain ⟨i, hi, rfl⟩ := List.mem_map.mp hr
    rw [List.mem_range] at hi
    exact unameA_ne (by omega)
  rw [pyLower_unameA, upsertRow_fresh hfresh u k, List.range_succ, List.map_append, hu]
  rfl

lemma run_c1_length (k : Nat) (hk : k ≤ 2000) :
    (runObserves (c1Events k) dbInit).rows.length = k := by
  rw [runObserves_c1 k hk]
  show ((List.range k).map rowA).length = k
  rw [List.length_map, List.length_range]

lemma crossing_upsert (k : Nat) (u : Int) (hu : u = (k : Int)) (hk : k ≤ 2000) :
    (upsertRow (pyLower (unameA k)) u (runObserves (c1Events k) dbInit).clock
      (runObserves (c1Events k) dbInit).rows).length = k + 1 := by
  rw [runObserves_c1 k hk]
  show (upsertRow (pyLower (unameA k)) u k ((List.range k).map rowA)).length = k + 1
  rw [upsertRow_rowA k u hu]
  show ((List.range (k + 1)).map rowA).length = k + 1
  rw [List.length_map, List.length_range]

lemma crossing_rows (k : Nat) (hk : k ≤ 2000) :
    (runObserves (c1Events (k + 1))  dbInit).rows
      = pruneCache 2000 ((List.range (k + 1)).map rowA) := by
  rw [step_c1 k, runObserves_c1 k hk]
  show save_user_cache (unameA k) (k : Int) k ((List.range k).map rowA)
    = pruneCache 2000 ((List.range (k + 1)).map rowA)
  unfold save_user_cache
  rw [upsertRow_rowA k (k : Int) rfl]

/-! ### Claim theorems for C1 -/

/-- Claim C1, counterexample.  Starting from the empty cache, 2000 observes
of distinct handles fill the cache to exactly 2000 rows; the 2001st observe
pushes the table to 2001 rows before pruning (so it crosses the configured
bound), yet after the pruning the size is 2000, not at most the claimed
target of 1500: the code prunes to the bound itself, there is no 1500
target. -/
theorem c1_eviction_counterexample :
    (runObserves (c1Events 2000) dbInit).rows.length = 2000 ∧
    (upsertRow (pyLower (unameA 2000)) 2000 (runObserves (c1Events 2000) dbInit).clock
      (runObserves (c1Events 2000) dbInit).rows).length = 2001 ∧
    (runObserves (c1Events 2001) dbInit).rows.length = 2000 ∧
    ¬ (runObserves (c1Events 2001) dbInit).rows.length ≤ 1500 := by
  have e : (2001 : Nat) = 2000 + 1 := by norm_num
  have h1 : (runObserves (c1Events 2000) dbInit).rows.length = 2000 :=
    run_c1_length 2000 (le_refl 2000)
  have h3 : (runObserves (c1Events 2001) dbInit).rows.length = 2000 := by
    calc (runObserves (c1Events 2001) dbInit).rows.length
        = (runObserves (c1Events (2000 + 1)) dbInit).rows.length := by rw [e]
      _ = (pruneCache 2000 ((List.range (2000 + 1)).map rowA)).length :=
          congrArg List.length (crossing_rows 2000 (le_refl 2000))
      _ = (pruneCache 2000 ((List.range 2001).map rowA)).length := by rw [e]
      _ = 2000 := prune_L2001_length
  refine ⟨h1, ?_, h3, ?_⟩
  · calc (upsertRow (pyLower (unameA 2000)) 2000 (runObserves (c1Events 2000) dbInit).clock
        (runObserves (c1Events 2000) dbInit).rows).length
        = 2000 + 1 := crossing_upsert 2000 2000 (by norm_num) (le_refl 2000)
      _ = 2001 := by norm_num
  · rw [h3]
    omega

/-- Claim C1, amended.  After any sequence of observe calls the persistent
Identity Cache holds at most 2000 rows: each save_user_cache prunes the
table back to the 2000 rows with the most recent last_seen.  The code has no
separate eviction target of 1500 — after crossing the bound the size settles
at the bound itself (see the counterexample). -/
theorem c1_cache_bound_amended (evs : List (String × Int)) :
    (runObserves evs dbInit).rows.length ≤ 2000 :=
  (runObserves_inv evs dbInit ⟨by simp [dbInit], by simp [dbInit], by simp [dbInit]⟩).1

/-- Claim C2, counterexample.  Resolution of the token at-bob with an empty
cache and a succeeding external lookup succeeds with the canonical handle
Bob as display, but the Identity Cache is left empty: the resolver does not
store the handle-to-id mapping it just obtained (watch_cmd never calls the
cache writers on this path). -/
theorem c2_cache_side_effect_counterexample :
    (watch_cmd "@bob" sampleOracle [] []).outcome = .watchedViaLookup 9 "@Bob" ∧
    (watch_cmd "@bob" sampleOracle [] []).user_cache = [] ∧
    dictGet "bob" (watch_cmd "@bob" sampleOracle [] []).user_cache = none := by
  refine ⟨rfl, rfl, rfl⟩

/-- Claim C2, amended.  When resolution of an at-handle token misses the
cache and the external member lookup succeeds, the resolver succeeds with
the platform-reported canonical handle (falling back to the first name when
the platform has none) as the display and upserts the user into the Watch
Registry; it performs exactly one external call and leaves the Identity
Cache unchanged (no mapping is stored). -/
theorem c2_external_success_amended (uname : String) (oracle : String → LookupResult)
    (watched : List (Int × String)) (cache : List (String × Int))
    (uid : Int) (musername : Option String) (fname : String)
    (hclean : ∀ c ∈ uname.data, pyIsSpace c = false) (hne : uname ≠ "")
    (hmiss : dictGet (pyLower uname) cache = none)
    (hsucc : oracle uname = .member uid musername fname) :
    watch_cmd ("@" ++ uname) oracle watched cache =
      ⟨.watchedViaLookup uid ("@" ++ pyOrElse musername fname),
        dictInsert uid ("@" ++ pyOrElse musername fname) watched, cache, 1, 1⟩ := by
  rw [watch_cmd_at uname oracle watched cache hclean,
    handleBranch_ext_of_miss oracle watched cache hne hmiss]
  unfold externalResolve
  rw [hsucc]

/-- Witness for the amended claim C2 at a concrete input. -/
theorem c2_external_success_amended_witness :
    watch_cmd "@bob" sampleOracle [] [] =
      ⟨.watchedViaLookup 9 ("@" ++ pyOrElse (some "Bob") "Bobby"),
        dictInsert 9 ("@" ++ pyOrElse (some "Bob") "Bobby") [], [], 1, 1⟩ :=
  c2_external_success_amended "bob" sampleOracle [] [] 9 (some "Bob") "Bobby"
    (by decide) (by decide) rfl rfl

/-- Claim C3 names a code bug.  The token dash-dash-5 neither parses as an
optionally-negative integer literal nor begins with the at sign, so by the
claim it should produce the invalid-argument usage reply.  The code instead
passes the guard (lstrip removes every leading dash before isdigit) and then
int raises ValueError, which escapes the handler: the outcome is the pyError
state with no reply and the registry untouched. -/
theorem c3_double_dash_crash (oracle : String → LookupResult)
    (watched : List (Int × String)) (cache : List (String × Int)) :
    watch_cmd "--5" oracle watched cache = ⟨.pyError, watched, cache, 0, 0⟩ := rfl

/-- Claim C4.  For a non-command message with a known sender, catch_all
requests exactly one delete with the message chat id and message id when the
sender id is in the Watch Registry, and requests no delete otherwise. -/
theorem c4_delete_iff_watched (cid mid : Int) (user : UserInfo)
    (watched : List (Int × String)) (cache : List (String × Int)) (db : DbState) :
    (dictContainsKey user.id watched = true →
      (catch_all (some ⟨cid, mid, some user⟩) watched cache db).deletes = [(cid, mid)]) ∧
    (dictContainsKey user.id watched = false →
      (catch_all (some ⟨cid, mid, some user⟩) watched cache db).deletes = []) := by
  constructor <;> intro h <;> simp [catch_all, h]

/-- Witness for claim C4 at a concrete input: a watched sender, one delete
with the message coordinates. -/
theorem c4_delete_iff_watched_witness :
    (catch_all (some ⟨100, 200, some ⟨7, some "alice"⟩⟩) [(7, "@alice")] [] dbInit).deletes
      = [(100, 200)] :=
  (c4_delete_iff_watched 100 200 ⟨7, some "alice"⟩ [(7, "@alice")] [] dbInit).1 (by decide)

/-- Claim C5.  For a non-command message whose sender carries a handle,
catch_all refreshes both the in-memory and the persistent Identity Cache
with the handle-to-id mapping unconditionally, watched or not; for a watched
sender the delete request is issued as well. -/
theorem c5_cache_refresh_unconditional (cid mid uid : Int) (uname : String)
    (watched : List (Int × String)) (cache : List (String × Int)) (db : DbState)
    (hne : uname ≠ "") :
    (catch_all (some ⟨cid, mid, some ⟨uid, some uname⟩⟩) watched cache db).user_cache
      = dictInsert (pyLower uname) uid cache ∧
    (catch_all (some ⟨cid, mid, some ⟨uid, some uname⟩⟩) watched cache db).db
      = observeDb uname uid db ∧
    (dictContainsKey uid watched = true →
      (catch_all (some ⟨cid, mid, some ⟨uid, some uname⟩⟩) watched cache db).deletes
        = [(cid, mid)]) := by
  refine ⟨by simp [catch_all, hne], by simp [catch_all, hne], ?_⟩
  intro h
  simp [catch_all, h]

/-- Witness for claim C5 at a concrete input: a watched sender with handle
Alice refreshes both caches and the delete is requested. -/
theorem c5_cache_refresh_unconditional_witness :
    (catch_all (some ⟨100, 200, some ⟨7, some "Alice"⟩⟩) [(7, "@alice")] [] dbInit).user_cache
      = dictInsert (pyLower "Alice") 7 [] ∧
    (catch_all (some ⟨100, 200, some ⟨7, some "Alice"⟩⟩) [(7, "@alice")] [] dbInit).db
      = observeDb "Alice" 7 dbInit ∧
    (catch_all (some ⟨100, 200, some ⟨7, some "Alice"⟩⟩) [(7, "@alice")] [] dbInit).deletes
      = [(100, 200)] := by
  have h := c5_cache_refresh_unconditional 100 200 7 "Alice" [(7, "@alice")] [] dbInit
    (by decide)
  exact ⟨h.1, h.2.1, h.2.2 (by decide)⟩

/-- Claim C6.  For every integer n, including negative n, resolving the
token str(n) takes the numeric branch: it succeeds with user id n, stores
the decimal string of n as the display, and performs no cache lookup and no
external call. -/
theorem c6_numeric_resolution (n : Int) (oracle : String → LookupResult)
    (watched : List (Int × String)) (cache : List (String × Int)) :
    watch_cmd (intStr n) oracle watched cache =
      ⟨.watchedNumeric n, dictInsert n (intStr n) watched, cache, 0, 0⟩ :=
  watch_cmd_intStr n oracle watched cache

/-- Claim C7.  Resolving an at-handle token that misses the cache maps every
failure of the single external lookup to the unresolved reply, leaving all
state unchanged and crashing nothing; and resolving the bare at sign (empty
handle) yields the usage reply without consulting anything. -/
theorem c7_lookup_failure_unresolved (uname : String) (oracle : String → LookupResult)
    (watched : List (Int × String)) (cache : List (String × Int))
    (hclean : ∀ c ∈ uname.data, pyIsSpace c = false) (hne : uname ≠ "")
    (hmiss : dictGet (pyLower uname) cache = none)
    (hfail : oracle uname = .failure) :
    watch_cmd ("@" ++ uname) oracle watched cache = ⟨.unresolved, watched, cache, 1, 1⟩ ∧
    watch_cmd "@" oracle watched cache = ⟨.usage, watched, cache, 0, 0⟩ := by
  constructor
  · rw [watch_cmd_at uname oracle watched cache hclean,
      handleBranch_ext_of_miss oracle watched cache hne hmiss]
    unfold externalResolve
    rw [hfail]
  · rfl

/-- Witness for claim C7 at a concrete input. -/
theorem c7_lookup_failure_unresolved_witness :
    watch_cmd "@bob" failOracle [] [] = ⟨.unresolved, [], [], 1, 1⟩ ∧
    watch_cmd "@" failOracle [] [] = ⟨.usage, [], [], 0, 0⟩ :=
  c7_lookup_failure_unresolved "bob" failOracle [] [] (by decide) (by decide) rfl rfl

/-- Claim C8.  remove_by_handle returns true exactly when some registry
entry matches the supplied handle case-insensitively after stripping leading
at signs from the stored display (so entries match whether or not the
display carries the at sign); on false the registry is unchanged, and
whenever a matching entry exists an entry is actually removed. -/
theorem c8_remove_by_handle_spec (handle : String) (watched : List (Int × String)) :
    ((remove_by_handle handle watched).1 = true ↔
      ∃ p ∈ watched, pyLower (pyLstripChar '@' p.2) = pyLower (pyStrip handle)) ∧
    ((remove_by_handle handle watched).1 = false →
      (remove_by_handle handle watched).2 = watched) ∧
    (∀ p ∈ watched, pyLower (pyLstripChar '@' p.2) = pyLower (pyStrip handle) →
      (remove_by_handle handle watched).2.length < watched.length) := by
  cases hf : watched.find? (fun p => pyLower (pyLstripChar '@' p.2) == pyLower (pyStrip handle))
    with
  | none =>
    have hnone := List.find?_eq_none.mp hf
    rw [remove_by_handle_of_find_none hf]
    refine ⟨?_, fun _ => rfl, ?_⟩
    · simp only [Bool.false_eq_true, false_iff]
      rintro ⟨p, hp, hcond⟩
      exact absurd (beq_iff_eq.mpr hcond) (by simpa using hnone p hp)
    · intro p hp hcond
      exact absurd (beq_iff_eq.mpr hcond) (by simpa using hnone p hp)
  | some q =>
    have hq := List.mem_of_find?_eq_some hf
    have hqp := List.find?_some hf
    rw [remove_by_handle_of_find_some hf]
    refine ⟨?_, by intro h; exact absurd h (by simp), ?_⟩
    · simp only [true_iff]
      exact ⟨q, hq, beq_iff_eq.mp hqp⟩
    · intro p hp hcond
      show (dictRemove q.1 watched).length < watched.length
      exact dictRemove_length_lt q.1 watched q.2 hq

/-- Witness for claim C8 at a concrete input: the stored display carries the
at sign and a different case, and removal still succeeds and removes the
entry. -/
theorem c8_remove_by_handle_spec_witness :
    (remove_by_handle "bob" [(5, "@Bob")]).1 = true ∧
    (remove_by_handle "bob" [(5, "@Bob")]).2.length < [((5 : Int), "@Bob")].length := by
  have h := c8_remove_by_handle_spec "bob" [(5, "@Bob")]
  exact ⟨h.1.mpr ⟨(5, "@Bob"), by decide, by decide⟩, h.2.2 (5, "@Bob") (by decide) (by decide)⟩

/-- Claim C9.  When the Identity Cache maps a handle to user id 0, resolving
that at-handle token treats the entry as a miss — the truthiness test on the
cached value fails — and the resolver proceeds to the external lookup
(exactly one external call is made). -/
theorem c9_cached_zero_treated_as_miss (uname : String) (oracle : String → LookupResult)
    (watched : List (Int × String)) (cache : List (String × Int))
    (hclean : ∀ c ∈ uname.data, pyIsSpace c = false) (hne : uname ≠ "")
    (hzero : dictGet (pyLower uname) cache = some 0) :
    watch_cmd ("@" ++ uname) oracle watched cache = externalResolve uname oracle watched cache ∧
    (watch_cmd ("@" ++ uname) oracle watched cache).externalCalls = 1 := by
  have h := (watch_cmd_at uname oracle watched cache hclean).trans
    (handleBranch_ext_of_zero oracle watched cache hne hzero)
  refine ⟨h, ?_⟩
  rw [h]
  unfold externalResolve
  cases oracle uname <;> rfl

/-- Witness for claim C9 at a concrete input: the cache maps bob to 0 and
the resolver still performs the external call. -/
theorem c9_cached_zero_treated_as_miss_witness :
    watch_cmd "@bob" sampleOracle [] [("bob", 0)]
      = externalResolve "bob" sampleOracle [] [("bob", 0)] ∧
    (watch_cmd "@bob" sampleOracle [] [("bob", 0)]).externalCalls = 1 :=
  c9_cached_zero_treated_as_miss "bob" sampleOracle [] [("bob", 0)]
    (by decide) (by decide) rfl

/-- Claim C10.  A registry entry added by numeric id carries the decimal
string of the id as its display, and remove_by_handle with a handle equal to
those decimal digits finds it (no at sign to strip, lower-casing is the
identity on digits), returns true and removes the entry. -/
theorem c10_numeric_entry_removable_by_handle (n : Int) (oracle : String → LookupResult)
    (cache : List (String × Int)) :
    remove_by_handle (intStr n) ((watch_cmd (intStr n) oracle [] cache).watched)
      = (true, []) := by
  rw [watch_cmd_intStr]
  show remove_by_handle (intStr n) (dictInsert n (intStr n) []) = (true, [])
  rw [show dictInsert n (intStr n) ([] : List (Int × String)) = [(n, intStr n)] from rfl]
  have hf : List.find? (fun p => pyLower (pyLstripChar '@' p.2) == pyLower (pyStrip (intStr n)))
      [(n, intStr n)] = some (n, intStr n) := by
    apply List.find?_cons_of_pos
    show (pyLower (pyLstripChar '@' (intStr n)) == pyLower (pyStrip (intStr n))) = true
    rw [lstripAt_intStr, pyStrip_intStr]
    exact beq_self_eq_true _
  rw [remove_by_handle_of_find_some hf]
  show (true, dictRemove n [(n, intStr n)]) = (true, [])
  simp [dictRemove]

end Bot
